import Mathlib

/-!
Verification of the ESL error annotator batch pipeline.

Shallow embedding of the repository's batch job-processing pipeline:
the `processQueue` dispatch loop of the batch processor component, the
`saveRecord` result-store append, the retrying `analyzeText` classifier
client, the `parseCSV` tabular parser, and the `renderText` logic of the
annotation view.  Control flags (`stopRef`, `pauseRef`) read by the loop
are modelled as boolean schedules indexed by an abstract time that
advances by one at every flag read; the classifier and the store are
modelled as outcome oracles.
-/

/-- `Annotation` record from `types.ts`.  `start_index` and `end_index`
are JS numbers; the code only ever compares and slices with them, so they
are embedded as integers. -/
structure Annotation where
  original_span : String
  corrected_span : String
  start_index : Int
  end_index : Int
  error_code : String
  macro_code : String
  explanation : String
deriving DecidableEq

/-- `AnalysisResult` record from `types.ts`. -/
structure AnalysisResult where
  original_text : String
  corrected_text : String
  annotations : List Annotation
deriving DecidableEq

/-- The `progress` state object of the batch processor:
`{ current, total, success, failed }`. -/
structure Progress where
  current : Nat
  total : Nat
  success : Nat
  failed : Nat
deriving DecidableEq

/-- The mutable component state touched by the dispatch loop:
`progress`, `displayResults`, `batchAnnotations`, `latestResult`. -/
structure LoopState where
  progress : Progress
  displayResults : List AnalysisResult
  batchAnnotations : List Annotation
  latestResult : Option AnalysisResult
deriving DecidableEq

/-- `MAX_DISPLAY_HISTORY` constant of `processQueue`. -/
def MAX_DISPLAY_HISTORY : Nat := 100

/-- The failure placeholder synthesized in the `catch` branch of
`processQueue`. -/
def errorResult (text : String) : AnalysisResult :=
  { original_text := text
    corrected_text := "Error processing this item."
    annotations := [] }

/-- State update of the `try` (success) branch of `processQueue`:
set `latestResult`, prepend to `displayResults` and truncate to the cap,
append the result's annotations to `batchAnnotations`, and bump
`current` and `success`. -/
def stepSuccess (s : LoopState) (result : AnalysisResult) : LoopState :=
  { progress := { s.progress with
      current := s.progress.current + 1
      success := s.progress.success + 1 }
    displayResults := (result :: s.displayResults).take MAX_DISPLAY_HISTORY
    batchAnnotations := s.batchAnnotations ++ result.annotations
    latestResult := some result }

/-- State update of the `catch` (failure) branch of `processQueue`:
prepend the synthesized placeholder to `displayResults` (truncated to the
cap) and bump `current` and `failed`; `latestResult` and
`batchAnnotations` are untouched. -/
def stepFailure (s : LoopState) (text : String) : LoopState :=
  { s with
    progress := { s.progress with
      current := s.progress.current + 1
      failed := s.progress.failed + 1 }
    displayResults := (errorResult text :: s.displayResults).take MAX_DISPLAY_HISTORY }

/-- A database row as built by `saveRecord` for the `essay_analyses`
table: `{ original_text, corrected_text, analysis_json, error_count }`. -/
structure DbRow where
  original_text : String
  corrected_text : String
  analysis_json : List Annotation
  error_count : Nat
deriving DecidableEq

/-- The insert payload `saveRecord` builds from a record. -/
def toRow (record : AnalysisResult) : DbRow :=
  { original_text := record.original_text
    corrected_text := record.corrected_text
    analysis_json := record.annotations
    error_count := record.annotations.length }

/-- The `{ data, error }` response shape of the supabase insert call. -/
structure InsertResponse where
  data : Option (List DbRow)
  error : Option String
deriving DecidableEq

/-- `saveRecord` from `supabaseClient.ts`.  `attempt` is the behavior of
the underlying awaited insert: `Except.error` models the awaited promise
rejecting, `Except.ok` the `{ data, error }` response.  The source wraps
everything in `try`/`catch` and returns `null` from the `catch`, so the
embedding is a total function into `Option`: a response-level `error` is
thrown and immediately caught (`none`), a rejection is caught (`none`),
and otherwise `data` is returned. -/
def saveRecord (record : AnalysisResult)
    (attempt : DbRow → Except String InsertResponse) : Option (List DbRow) :=
  match attempt (toRow record) with
  | Except.error _ => none
  | Except.ok resp =>
    match resp.error with
    | some _ => none
    | none => resp.data

/-- The pause-polling wait of `processQueue`:
`while (pauseRef.current) { if (stopRef.current) break; await sleep(500) }`.
`pf`/`sf` are the values of `pauseRef.current`/`stopRef.current` as a
function of an abstract time that advances by one at each flag read;
`t` is the time of the first read.  Returns the time after the wait and
whether the wait was left because stop was observed; `none` models the
wait never terminating (paused forever with no stop). -/
def pauseWait (pf sf : Nat → Bool) (t fuel : Nat) : Option (Nat × Bool) :=
  match fuel with
  | 0 => none
  | fuel' + 1 =>
    if pf t then
      if sf (t + 1) then some (t + 2, true)
      else pauseWait pf sf (t + 2) fuel'
    else some (t + 1, false)

/-- Output of a (terminating) run of the dispatch loop: the final
component state, the ordered trace of `(index, text)` pairs submitted to
the classifier, and the ordered trace of results passed to
`saveRecord`. -/
structure LoopOut where
  final : LoopState
  calls : List (Nat × String)
  saves : List AnalysisResult
deriving DecidableEq

/-- The `for (const text of items)` dispatch loop of `processQueue`.
`classify i text` is the outcome of `await analyzeText(text)` for the
item at index `i` (`none` models the call throwing), `store i` the
behavior of the underlying insert for that item's `saveRecord` call.
Each iteration reads `stopRef` at time `t` (exiting the loop if set),
runs the pause-polling wait from `t + 1`, then executes the `try`/`catch`
body.  Note that a stop observed inside the pause wait only breaks the
inner `while`: the current item is still processed. -/
def processLoop (classify : Nat → String → Option AnalysisResult)
    (pf sf : Nat → Bool) (store : Nat → DbRow → Except String InsertResponse)
    (fuel : Nat) (i t : Nat) (items : List String) (s : LoopState) :
    Option LoopOut :=
  match items with
  | [] => some ⟨s, [], []⟩
  | text :: rest =>
    if sf t then some ⟨s, [], []⟩
    else
      match pauseWait pf sf (t + 1) fuel with
      | none => none
      | some (t', _) =>
        match classify i text with
        | some result =>
          let _saved := saveRecord result (store i)
          match processLoop classify pf sf store fuel (i + 1) t' rest
              (stepSuccess s result) with
          | none => none
          | some o => some ⟨o.final, (i, text) :: o.calls, result :: o.saves⟩
        | none =>
          match processLoop classify pf sf store fuel (i + 1) t' rest
              (stepFailure s text) with
          | none => none
          | some o => some ⟨o.final, (i, text) :: o.calls, o.saves⟩

/-- Result of the whole `processQueue` call: after the loop the code
unconditionally runs `setIsProcessing(false)` and `onComplete()`. -/
structure RunResult where
  out : LoopOut
  isProcessing : Bool
  onCompleteCalled : Bool
deriving DecidableEq

/-- `processQueue(items)` starting from component state `s`. -/
def processQueue (classify : Nat → String → Option AnalysisResult)
    (pf sf : Nat → Bool) (store : Nat → DbRow → Except String InsertResponse)
    (fuel : Nat) (items : List String) (s : LoopState) : Option RunResult :=
  (processLoop classify pf sf store fuel 0 0 items s).map
    (fun o => ⟨o, false, true⟩)

/-- The state `handleStart` installs before calling `processQueue`:
counters zeroed, `total` set to the batch size, result views cleared. -/
def initialState (total : Nat) : LoopState :=
  { progress := { current := 0, total := total, success := 0, failed := 0 }
    displayResults := []
    batchAnnotations := []
    latestResult := none }

/-- `handleStart(inputs)`: reset the state and run `processQueue`. -/
def handleStart (classify : Nat → String → Option AnalysisResult)
    (pf sf : Nat → Bool) (store : Nat → DbRow → Except String InsertResponse)
    (fuel : Nat) (inputs : List String) : Option RunResult :=
  processQueue classify pf sf store fuel inputs (initialState inputs.length)

/-- The schedule-free state transformer of the loop body: the fold of the
per-item `try`/`catch` updates over the item list, used to compare runs
under different pause schedules. -/
def pureRun (classify : Nat → String → Option AnalysisResult) :
    Nat → List String → LoopState → LoopState
  | _, [], s => s
  | i, text :: rest, s =>
    pureRun classify (i + 1) rest
      (match classify i text with
       | some result => stepSuccess s result
       | none => stepFailure s text)

/-- The result the loop records for item `i` with text `text`: the
classifier's result on success, the synthesized placeholder on failure. -/
def itemResult (classify : Nat → String → Option AnalysisResult)
    (i : Nat) (text : String) : AnalysisResult :=
  match classify i text with
  | some result => result
  | none => errorResult text

/-- Outcome of one underlying `ai.models.generateContent` call inside the
retrying `analyzeText`: a parsed result, a retryable error (HTTP 429 rate
limit or 503 overload), or any other (fatal) error. -/
inductive CallResult where
  | ok (result : AnalysisResult)
  | retryable
  | fatal
deriving DecidableEq

/-- Error surfaced by the retrying `analyzeText` to its caller. -/
inductive AnalyzeFailure where
  | missingKey
  | fatalCall
  | maxRetriesExceeded
deriving DecidableEq

/-- Observable outcome of one `analyzeText` invocation: the surfaced
result or error, the number of underlying calls made, and the waits (in
milliseconds) performed between attempts, in order. -/
structure AnalyzeOut where
  result : Except AnalyzeFailure AnalysisResult
  callCount : Nat
  waits : List ℚ

/-- `maxRetries` constant of `analyzeText`. -/
def maxRetries : Nat := 5

/-- `baseDelay` constant of `analyzeText` (milliseconds). -/
def baseDelay : ℚ := 2000

/-- `waitTime` computed when `retries` has just been incremented to `n`:
`baseDelay * Math.pow(2, retries) + Math.random() * 1000`.  `rand` is the
oracle for `Math.random()`. -/
def waitTime (rand : Nat → ℚ) (n : Nat) : ℚ :=
  baseDelay * 2 ^ n + rand n * 1000

/-- The `while (retries < maxRetries)` loop of the retrying
`analyzeText`.  `calls k` is the outcome of the underlying call made when
`retries = k`.  On a retryable outcome the code increments `retries`,
waits, and loops; on a fatal outcome it rethrows at once; leaving the
loop throws "Max retries exceeded". -/
def analyzeTextGo (calls : Nat → CallResult) (rand : Nat → ℚ)
    (retries : Nat) : AnalyzeOut :=
  if h : retries < maxRetries then
    match calls retries with
    | CallResult.ok result => ⟨Except.ok result, 1, []⟩
    | CallResult.fatal => ⟨Except.error AnalyzeFailure.fatalCall, 1, []⟩
    | CallResult.retryable =>
      let w := waitTime rand (retries + 1)
      let rest := analyzeTextGo calls rand (retries + 1)
      ⟨rest.result, rest.callCount + 1, w :: rest.waits⟩
  else ⟨Except.error AnalyzeFailure.maxRetriesExceeded, 0, []⟩
termination_by maxRetries - retries
decreasing_by
  unfold maxRetries at h ⊢
  omega

/-- The retrying `analyzeText`: throws immediately if the API key is
missing, otherwise runs the retry loop from `retries = 0`. -/
def analyzeText (hasKey : Bool) (calls : Nat → CallResult)
    (rand : Nat → ℚ) : AnalyzeOut :=
  if hasKey then analyzeTextGo calls rand 0
  else ⟨Except.error AnalyzeFailure.missingKey, 0, []⟩

/-- First normalization pass of `parseCSV`:
`text.replace(/\r\n/g, '\n')` (global, leftmost, non-overlapping). -/
def normCRLF : List Char → List Char
  | '\r' :: '\n' :: rest => '\n' :: normCRLF rest
  | c :: rest => c :: normCRLF rest
  | [] => []

/-- Second normalization pass of `parseCSV`:
`.replace(/\r/g, '\n')`. -/
def normCR (l : List Char) : List Char :=
  l.map (fun c => if c = '\r' then '\n' else c)

/-- The full line-ending normalization of `parseCSV`. -/
def normalizeChars (l : List Char) : List Char := normCR (normCRLF l)

/-- `String.prototype.trim`, modelled on character lists with Unicode
whitespace approximated by `Char.isWhitespace`. -/
def trimChars (l : List Char) : List Char :=
  ((l.dropWhile Char.isWhitespace).reverse.dropWhile Char.isWhitespace).reverse

/-- `if (current.trim()) results.push(current.trim())` of `parseCSV`. -/
def csvFlush (current : List Char) : List String :=
  if trimChars current = [] then [] else [String.mk (trimChars current)]

/-- The character scan of `parseCSV` over the normalized text, carrying
`current` and `inQuote`. -/
def csvLoop : List Char → List Char → Bool → List String
  | [], current, _ => csvFlush current
  | '"' :: '"' :: rest2, current, true => csvLoop rest2 (current ++ ['"']) true
  | '"' :: rest, current, true => csvLoop rest current false
  | c :: rest, current, true => csvLoop rest (current ++ [c]) true
  | c :: rest, current, false =>
    if c = '"' then csvLoop rest current true
    else if c = '\n' then csvFlush current ++ csvLoop rest [] false
    else csvLoop rest (current ++ [c]) false

/-- `parseCSV` from the batch processor component. -/
def parseCSV (s : String) : List String :=
  csvLoop (normalizeChars s.data) [] false

/-- Reference splitting of a character list into its '\n'-separated
lines, for stating what `parseCSV` returns on quote-free input. -/
def splitLinesChars (l : List Char) : List (List Char) :=
  l.foldr
    (fun c acc =>
      if c = '\n' then [] :: acc
      else
        match acc with
        | [] => [[c]]
        | h :: t => (c :: h) :: t)
    [[]]

/-- The work-item a line contributes: its trimmed text if non-empty. -/
def lineEntry (seg : List Char) : Option String :=
  if trimChars seg = [] then none else some (String.mk (trimChars seg))

/-- Index clamping of `String.prototype.slice`. -/
def jsSliceIndex (len : Nat) (i : Int) : Nat :=
  if i < 0 then (len + i).toNat else min i.toNat len

/-- `text.slice(a, b)` on a character list. -/
def jsSlice (l : List Char) (a b : Int) : List Char :=
  (l.take (jsSliceIndex l.length b)).drop (jsSliceIndex l.length a)

/-- The sort `[...annotations].sort((a, b) => a.start_index - b.start_index)`
of `AnnotationView`, modelled by a stable sort on `start_index`. -/
def sortAnnotations (annotations : List Annotation) : List Annotation :=
  List.insertionSort (fun a b => a.start_index ≤ b.start_index) annotations

/-- The `forEach` body of `renderText`, emitting the text of each
rendered span: the un-annotated slice before an annotation (when
non-empty), the annotated slice, and finally the slice after the last
annotation (when `lastIndex < originalText.length`). -/
def renderLoop (text : List Char) (lastIndex : Int) :
    List Annotation → List (List Char)
  | [] =>
    if lastIndex < (text.length : Int) then [jsSlice text lastIndex text.length]
    else []
  | ann :: rest =>
    (if lastIndex < ann.start_index then [jsSlice text lastIndex ann.start_index]
     else []) ++
    jsSlice text ann.start_index ann.end_index :: renderLoop text ann.end_index rest

/-- `renderText` of `AnnotationView`: sort the annotations by
`start_index` and emit the segment texts in order. -/
def renderText (originalText : List Char) (annotations : List Annotation) :
    List (List Char) :=
  renderLoop originalText 0 (sortAnnotations annotations)

section LoopLemmas

variable {classify : Nat → String → Option AnalysisResult} {pf sf : Nat → Bool}
variable {store : Nat → DbRow → Except String InsertResponse} {fuel : Nat}

/-- A set stop flag at the top-of-loop check ends the loop at once, with
no classifier calls and no saves. -/
lemma processLoop_stop {t : Nat} (h : sf t = true) (i : Nat)
    (items : List String) (s : LoopState) :
    processLoop classify pf sf store fuel i t items s = some ⟨s, [], []⟩ := by
  cases items with
  | nil => rfl
  | cons text rest => simp [processLoop, h]

/-- Both per-item state updates preserve `success + failed = current`. -/
lemma step_inv {s : LoopState}
    (h : s.progress.success + s.progress.failed = s.progress.current) :
    (∀ r, (stepSuccess s r).progress.success + (stepSuccess s r).progress.failed =
      (stepSuccess s r).progress.current) ∧
    (∀ text, (stepFailure s text).progress.success + (stepFailure s text).progress.failed =
      (stepFailure s text).progress.current) := by
  constructor <;> intro _ <;> simp [stepSuccess, stepFailure] <;> omega

/-- Step equation of the loop for an iteration whose classifier call
succeeds. -/
lemma processLoop_cons_success {t t' : Nat} {b : Bool} {i : Nat}
    {text : String} {result : AnalysisResult}
    (hs : sf t = false) (hpw : pauseWait pf sf (t + 1) fuel = some (t', b))
    (hc : classify i text = some result) (rest : List String) (s : LoopState) :
    processLoop classify pf sf store fuel i t (text :: rest) s =
      (processLoop classify pf sf store fuel (i + 1) t' rest
        (stepSuccess s result)).map
        (fun o => ⟨o.final, (i, text) :: o.calls, result :: o.saves⟩) := by
  simp only [processLoop, hs, Bool.false_eq_true, if_false, hpw, hc]
  cases hrec : processLoop classify pf sf store fuel (i + 1) t' rest
      (stepSuccess s result) <;> simp

/-- Step equation of the loop for an iteration whose classifier call
throws. -/
lemma processLoop_cons_failure {t t' : Nat} {b : Bool} {i : Nat}
    {text : String}
    (hs : sf t = false) (hpw : pauseWait pf sf (t + 1) fuel = some (t', b))
    (hc : classify i text = none) (rest : List String) (s : LoopState) :
    processLoop classify pf sf store fuel i t (text :: rest) s =
      (processLoop classify pf sf store fuel (i + 1) t' rest
        (stepFailure s text)).map
        (fun o => ⟨o.final, (i, text) :: o.calls, o.saves⟩) := by
  simp only [processLoop, hs, Bool.false_eq_true, if_false, hpw, hc]
  cases hrec : processLoop classify pf sf store fuel (i + 1) t' rest
      (stepFailure s text) <;> simp

/-- The dispatch loop preserves `success + failed = current`. -/
lemma processLoop_inv :
    ∀ (items : List String) (i t : Nat) (s : LoopState) (out : LoopOut),
    processLoop classify pf sf store fuel i t items s = some out →
    s.progress.success + s.progress.failed = s.progress.current →
    out.final.progress.success + out.final.progress.failed =
      out.final.progress.current := by
  intro items
  induction items with
  | nil =>
    intro i t s out h hinv
    simp only [processLoop, Option.some.injEq] at h
    subst h
    exact hinv
  | cons text rest ih =>
    intro i t s out h hinv
    by_cases hs : sf t
    · rw [processLoop_stop hs] at h
      cases h
      exact hinv
    · rw [Bool.not_eq_true] at hs
      cases hpw : pauseWait pf sf (t + 1) fuel with
      | none => simp [processLoop, hs, hpw] at h
      | some p =>
        obtain ⟨t', b⟩ := p
        cases hc : classify i text with
        | some result =>
          rw [processLoop_cons_success hs hpw hc] at h
          rw [Option.map_eq_some'] at h
          obtain ⟨o, hrec, ho⟩ := h
          subst ho
          exact ih (i + 1) t' (stepSuccess s result) o hrec ((step_inv hinv).1 result)
        | none =>
          rw [processLoop_cons_failure hs hpw hc] at h
          rw [Option.map_eq_some'] at h
          obtain ⟨o, hrec, ho⟩ := h
          subst ho
          exact ih (i + 1) t' (stepFailure s text) o hrec ((step_inv hinv).2 text)

end LoopLemmas

section LoopLemmas2

variable {classify : Nat → String → Option AnalysisResult} {pf sf : Nat → Bool}
variable {store : Nat → DbRow → Except String InsertResponse} {fuel : Nat}

/-- With the pause flag clear, the pause wait returns at its first poll
without observing stop. -/
lemma pauseWait_noPause {t fuel : Nat} (h : pf t = false) (hf : 0 < fuel) :
    pauseWait pf sf t fuel = some (t + 1, false) := by
  cases fuel with
  | zero => omega
  | succ fuel' => simp [pauseWait, h]

/-- If the pause wait reports that stop was observed, the stop flag was
indeed read as set at the instant before the wait returned. -/
lemma pauseWait_stop_read :
    ∀ (fuel t b : Nat), pauseWait pf sf t fuel = some (b, true) →
      sf (b - 1) = true ∧ 0 < b := by
  intro fuel
  induction fuel with
  | zero => intro t b h; simp [pauseWait] at h
  | succ fuel' ih =>
    intro t b h
    simp only [pauseWait] at h
    by_cases hp : pf t
    · simp only [hp, if_true] at h
      by_cases hstop : sf (t + 1)
      · simp only [hstop, if_true, Option.some.injEq, Prod.mk.injEq] at h
        obtain ⟨hb, -⟩ := h
        subst hb
        exact ⟨by simpa using hstop, by omega⟩
      · simp only [hstop, Bool.false_eq_true, if_false] at h
        exact ih (t + 2) b h
    · simp only [Bool.not_eq_true] at hp
      simp [hp] at h

/-- With the stop flag never set, a terminating run of the dispatch loop
computes exactly the schedule-free fold and submits every item, in
order. -/
lemma processLoop_noStop (hsf : ∀ u, sf u = false) :
    ∀ (items : List String) (i t : Nat) (s : LoopState) (out : LoopOut),
    processLoop classify pf sf store fuel i t items s = some out →
    out.final = pureRun classify i items s ∧
      out.calls = List.enumFrom i items := by
  intro items
  induction items with
  | nil =>
    intro i t s out h
    simp only [processLoop, Option.some.injEq] at h
    subst h
    exact ⟨rfl, rfl⟩
  | cons text rest ih =>
    intro i t s out h
    cases hpw : pauseWait pf sf (t + 1) fuel with
    | none => simp [processLoop, hsf t, hpw] at h
    | some p =>
      obtain ⟨t', b⟩ := p
      cases hc : classify i text with
      | some result =>
        rw [processLoop_cons_success (hsf t) hpw hc] at h
        rw [Option.map_eq_some'] at h
        obtain ⟨o, hrec, ho⟩ := h
        subst ho
        obtain ⟨h1, h2⟩ := ih (i + 1) t' (stepSuccess s result) o hrec
        refine ⟨?_, ?_⟩
        · simp only [pureRun, hc]
          exact h1
        · simp only [List.enumFrom, h2]
      | none =>
        rw [processLoop_cons_failure (hsf t) hpw hc] at h
        rw [Option.map_eq_some'] at h
        obtain ⟨o, hrec, ho⟩ := h
        subst ho
        obtain ⟨h1, h2⟩ := ih (i + 1) t' (stepFailure s text) o hrec
        refine ⟨?_, ?_⟩
        · simp only [pureRun, hc]
          exact h1
        · simp only [List.enumFrom, h2]

/-- With stop never set and pause never engaged, the dispatch loop
terminates (for any positive poll fuel) and processes every item. -/
lemma processLoop_noStop_noPause (hsf : ∀ u, sf u = false)
    (hpf : ∀ u, pf u = false) (hf : 0 < fuel) :
    ∀ (items : List String) (i t : Nat) (s : LoopState),
    ∃ saves, processLoop classify pf sf store fuel i t items s =
      some ⟨pureRun classify i items s, List.enumFrom i items, saves⟩ := by
  intro items
  induction items with
  | nil => intro i t s; exact ⟨[], rfl⟩
  | cons text rest ih =>
    intro i t s
    have hpw : pauseWait pf sf (t + 1) fuel = some (t + 2, false) :=
      pauseWait_noPause (hpf (t + 1)) hf
    cases hc : classify i text with
    | some result =>
      obtain ⟨saves, hrec⟩ := ih (i + 1) (t + 2) (stepSuccess s result)
      refine ⟨result :: saves, ?_⟩
      rw [processLoop_cons_success (hsf t) hpw hc, hrec]
      simp only [Option.map_some', pureRun, hc, List.enumFrom]
    | none =>
      obtain ⟨saves, hrec⟩ := ih (i + 1) (t + 2) (stepFailure s text)
      refine ⟨saves, ?_⟩
      rw [processLoop_cons_failure (hsf t) hpw hc, hrec]
      simp only [Option.map_some', pureRun, hc, List.enumFrom]

/-- The dispatch loop's observable outcome does not depend on the
behavior of the result store. -/
lemma processLoop_store_irrelevant
    {store' : Nat → DbRow → Except String InsertResponse} :
    ∀ (items : List String) (i t : Nat) (s : LoopState),
    processLoop classify pf sf store fuel i t items s =
      processLoop classify pf sf store' fuel i t items s := by
  intro items
  induction items with
  | nil => intro i t s; rfl
  | cons text rest ih =>
    intro i t s
    simp only [processLoop]
    cases pauseWait pf sf (t + 1) fuel with
    | none => rfl
    | some p =>
      obtain ⟨t', b⟩ := p
      cases classify i text with
      | some result => simp only [ih (i + 1) t' (stepSuccess s result)]
      | none => simp only [ih (i + 1) t' (stepFailure s text)]

/-- `pureRun` adds the number of processed items to `current` and leaves
`total` unchanged. -/
lemma pureRun_counters :
    ∀ (items : List String) (i : Nat) (s : LoopState),
    (pureRun classify i items s).progress.current =
      s.progress.current + items.length ∧
    (pureRun classify i items s).progress.total = s.progress.total := by
  intro items
  induction items with
  | nil => intro i s; exact ⟨rfl, rfl⟩
  | cons text rest ih =>
    intro i s
    cases hc : classify i text with
    | some result =>
      have := ih (i + 1) (stepSuccess s result)
      simp only [pureRun, hc, List.length_cons]
      rw [this.1, this.2]
      simp [stepSuccess]
      omega
    | none =>
      have := ih (i + 1) (stepFailure s text)
      simp only [pureRun, hc, List.length_cons]
      rw [this.1, this.2]
      simp [stepFailure]
      omega

end LoopLemmas2

/-- Truncating before appending under an outer truncation is harmless. -/
lemma take_append_take {α : Type} (A B : List α) (n : Nat) :
    (A ++ B.take n).take n = (A ++ B).take n := by
  simp only [List.take_append_eq_append_take, List.take_take]
  congr 1
  rw [min_eq_left (Nat.sub_le n A.length)]

section LoopLemmas3

variable {classify : Nat → String → Option AnalysisResult} {pf sf : Nat → Bool}
variable {store : Nat → DbRow → Except String InsertResponse} {fuel : Nat}

/-- Shape of the recent-results view after any terminating run of the
dispatch loop: the per-item results of the submitted items, most recent
first, in front of the initial view, truncated to the cap. -/
lemma processLoop_display :
    ∀ (items : List String) (i t : Nat) (s : LoopState) (out : LoopOut),
    processLoop classify pf sf store fuel i t items s = some out →
    s.displayResults.length ≤ MAX_DISPLAY_HISTORY →
    out.final.displayResults =
      ((out.calls.map (fun c => itemResult classify c.1 c.2)).reverse ++
        s.displayResults).take MAX_DISPLAY_HISTORY := by
  intro items
  induction items with
  | nil =>
    intro i t s out h hlen
    simp only [processLoop, Option.some.injEq] at h
    subst h
    simp [List.take_of_length_le hlen]
  | cons text rest ih =>
    intro i t s out h hlen
    by_cases hs : sf t
    · rw [processLoop_stop hs] at h
      cases h
      simp [List.take_of_length_le hlen]
    · rw [Bool.not_eq_true] at hs
      cases hpw : pauseWait pf sf (t + 1) fuel with
      | none => simp [processLoop, hs, hpw] at h
      | some p =>
        obtain ⟨t', b⟩ := p
        cases hc : classify i text with
        | some result =>
          rw [processLoop_cons_success hs hpw hc] at h
          rw [Option.map_eq_some'] at h
          obtain ⟨o, hrec, ho⟩ := h
          subst ho
          have hlen' : (stepSuccess s result).displayResults.length ≤
              MAX_DISPLAY_HISTORY := by
            simp [stepSuccess, List.length_take]
          have := ih (i + 1) t' (stepSuccess s result) o hrec hlen'
          simp only [this, stepSuccess, List.map_cons, List.reverse_cons]
          rw [List.append_assoc, List.singleton_append, take_append_take]
          simp [itemResult, hc]
        | none =>
          rw [processLoop_cons_failure hs hpw hc] at h
          rw [Option.map_eq_some'] at h
          obtain ⟨o, hrec, ho⟩ := h
          subst ho
          have hlen' : (stepFailure s text).displayResults.length ≤
              MAX_DISPLAY_HISTORY := by
            simp [stepFailure, List.length_take]
          have := ih (i + 1) t' (stepFailure s text) o hrec hlen'
          simp only [this, stepFailure, List.map_cons, List.reverse_cons]
          rw [List.append_assoc, List.singleton_append, take_append_take]
          simp [itemResult, hc]

end LoopLemmas3

/-- C1: At every progress snapshot emitted by the batch dispatch loop
(`processQueue`), the success count plus the failure count equals the
current count: starting from any state satisfying the invariant, after
the loop has handled any prefix of the item list (each handled item
increments `current` together with exactly one of `success` or `failed`),
the invariant still holds. -/
theorem claim_C1_progress_sum
    (classify : Nat → String → Option AnalysisResult) (pf sf : Nat → Bool)
    (store : Nat → DbRow → Except String InsertResponse)
    (fuel i t n : Nat) (items : List String) (s : LoopState) (out : LoopOut)
    (hinv : s.progress.success + s.progress.failed = s.progress.current)
    (hrun : processLoop classify pf sf store fuel i t (items.take n) s = some out) :
    out.final.progress.success + out.final.progress.failed =
      out.final.progress.current :=
  processLoop_inv (items.take n) i t s out hrun hinv

/-- Witness for C1 at a concrete run: one item, classifier throwing. -/
theorem claim_C1_progress_sum_witness :
    ((initialState 2).progress.success + (initialState 2).progress.failed =
      (initialState 2).progress.current) ∧
    (processLoop (fun _ _ => none) (fun _ => false) (fun _ => false)
      (fun _ _ => Except.error "down") 1 0 0 (["a", "b"].take 1)
      (initialState 2) =
      some { final := { progress := { current := 1, total := 2, success := 0, failed := 1 }
                        displayResults := [errorResult "a"]
                        batchAnnotations := []
                        latestResult := none }
             calls := [(0, "a")], saves := [] }) ∧
    ((0 : Nat) + 1 = 1) := by
  have hrun : processLoop (fun _ _ => none) (fun _ => false) (fun _ => false)
      (fun _ _ => Except.error "down") 1 0 0 (["a", "b"].take 1)
      (initialState 2) =
      some { final := { progress := { current := 1, total := 2, success := 0, failed := 1 }
                        displayResults := [errorResult "a"]
                        batchAnnotations := []
                        latestResult := none }
             calls := [(0, "a")], saves := [] } := by
    rfl
  exact ⟨rfl, hrun, claim_C1_progress_sum (fun _ _ => none) (fun _ => false)
    (fun _ => false) (fun _ _ => Except.error "down") 1 0 0 1 ["a", "b"]
    (initialState 2) _ rfl hrun⟩

/-- C2: For every submitted batch of N items, if stop is never requested
and pause is never engaged, `handleStart`'s dispatch loop terminates,
submits all N items to the classifier in submission order, `current`
reaches N (with `total` = N), the run leaves the processing state
(`isProcessing` ends false), and the completion callback `onComplete` is
invoked. -/
theorem claim_C2_completion
    (classify : Nat → String → Option AnalysisResult)
    (store : Nat → DbRow → Except String InsertResponse)
    (pf sf : Nat → Bool) (fuel : Nat) (inputs : List String)
    (hsf : ∀ u, sf u = false) (hpf : ∀ u, pf u = false) (hfuel : 0 < fuel) :
    ∃ res : RunResult,
      handleStart classify pf sf store fuel inputs = some res ∧
      res.out.calls = inputs.enum ∧
      res.out.final.progress.current = inputs.length ∧
      res.out.final.progress.total = inputs.length ∧
      res.isProcessing = false ∧
      res.onCompleteCalled = true := by
  obtain ⟨saves, hrun⟩ :=
    @processLoop_noStop_noPause classify pf sf store fuel hsf hpf hfuel
      inputs 0 0 (initialState inputs.length)
  refine ⟨⟨⟨pureRun classify 0 inputs (initialState inputs.length),
    List.enumFrom 0 inputs, saves⟩, false, true⟩, ?_, rfl, ?_, ?_, rfl, rfl⟩
  · unfold handleStart processQueue
    rw [hrun]
    rfl
  · have := @pureRun_counters classify inputs 0 (initialState inputs.length)
    simpa [initialState] using this.1
  · have := @pureRun_counters classify inputs 0 (initialState inputs.length)
    simpa [initialState] using this.2

/-- Witness for C2 at a concrete two-item batch. -/
theorem claim_C2_completion_witness :
    (∀ u : Nat, (fun _ : Nat => false) u = false) ∧
    (0 : Nat) < 1 ∧
    (∃ res : RunResult,
      handleStart (fun _ text => some ⟨text, text, []⟩) (fun _ => false)
        (fun _ => false) (fun _ _ => Except.error "down") 1 ["x", "y"] =
        some res ∧
      res.out.calls = (["x", "y"] : List String).enum ∧
      res.out.final.progress.current = (["x", "y"] : List String).length ∧
      res.out.final.progress.total = (["x", "y"] : List String).length ∧
      res.isProcessing = false ∧
      res.onCompleteCalled = true) :=
  ⟨fun _ => rfl, Nat.one_pos,
    claim_C2_completion (fun _ text => some ⟨text, text, []⟩)
      (fun _ _ => Except.error "down") (fun _ => false) (fun _ => false) 1
      ["x", "y"] (fun _ => rfl) (fun _ => rfl) Nat.one_pos⟩

/-- C3: When the classifier call for an item throws, the dispatch loop
synthesizes the placeholder (`original_text` = the input text,
`corrected_text` = "Error processing this item.", empty annotations),
shows it (prepended to the display list), increments the failure count
and not the success count, passes nothing to `saveRecord` for this item,
and continues the loop on the remaining items. -/
theorem claim_C3_failure_isolation
    (classify : Nat → String → Option AnalysisResult) (pf sf : Nat → Bool)
    (store : Nat → DbRow → Except String InsertResponse)
    (fuel i t t' : Nat) (b : Bool) (text : String) (rest : List String)
    (s : LoopState)
    (hs : sf t = false) (hpw : pauseWait pf sf (t + 1) fuel = some (t', b))
    (hc : classify i text = none) :
    processLoop classify pf sf store fuel i t (text :: rest) s =
      (processLoop classify pf sf store fuel (i + 1) t' rest
        (stepFailure s text)).map
        (fun o => ⟨o.final, (i, text) :: o.calls, o.saves⟩) ∧
    (errorResult text).original_text = text ∧
    (errorResult text).corrected_text = "Error processing this item." ∧
    (errorResult text).annotations = [] ∧
    (stepFailure s text).displayResults =
      (errorResult text :: s.displayResults).take MAX_DISPLAY_HISTORY ∧
    (stepFailure s text).progress.failed = s.progress.failed + 1 ∧
    (stepFailure s text).progress.success = s.progress.success ∧
    (stepFailure s text).progress.current = s.progress.current + 1 :=
  ⟨processLoop_cons_failure hs hpw hc rest s, rfl, rfl, rfl, rfl, rfl, rfl, rfl⟩

/-- Witness for C3: a concrete three-item batch whose second item throws;
the equation of the theorem is applied at the second iteration. -/
theorem claim_C3_failure_isolation_witness :
    ((fun _ : Nat => false) 2 = false) ∧
    (pauseWait (fun _ => false) (fun _ => false) 3 1 = some (4, false)) ∧
    ((fun i (_ : String) => if i = 1 then none else
        some (⟨"ok", "ok", []⟩ : AnalysisResult)) 1 "b" = none) ∧
    (processLoop
      (fun i (_ : String) => if i = 1 then none else
        some (⟨"ok", "ok", []⟩ : AnalysisResult))
      (fun _ => false) (fun _ => false) (fun _ _ => Except.error "down") 1
      1 2 ["b", "c"] (initialState 3) =
      (processLoop
        (fun i (_ : String) => if i = 1 then none else
          some (⟨"ok", "ok", []⟩ : AnalysisResult))
        (fun _ => false) (fun _ => false) (fun _ _ => Except.error "down") 1
        2 4 ["c"] (stepFailure (initialState 3) "b")).map
        (fun o => ⟨o.final, (1, "b") :: o.calls, o.saves⟩)) := by
  have h := claim_C3_failure_isolation
    (fun i (_ : String) => if i = 1 then none else
      some (⟨"ok", "ok", []⟩ : AnalysisResult))
    (fun _ => false) (fun _ => false) (fun _ _ => Except.error "down") 1
    1 2 4 false "b" ["c"] (initialState 3) rfl rfl rfl
  exact ⟨rfl, rfl, rfl, h.1⟩

/-- The stop flag of a run is monotone: once `stopRef.current` is set by
`handleStop` it is never cleared for the rest of the run. -/
def StopMono (sf : Nat → Bool) : Prop :=
  ∀ u v : Nat, u ≤ v → sf u = true → sf v = true

/-- C5 (amended): a stop observed at the top-of-loop check ends the loop
at once, with no classifier call for the current or any later item; a
stop observed inside the pause-polling wait does NOT end the loop at
once — the current in-flight item is still submitted to the classifier —
but it is the only remaining submission: the loop exits at the next
top-of-loop check.  Hence stopping at item k yields a classifier call
count of at most k. -/
theorem claim_C5_stop_amended
    (classify : Nat → String → Option AnalysisResult) (pf sf : Nat → Bool)
    (store : Nat → DbRow → Except String InsertResponse)
    (fuel i t : Nat) (text : String) (rest : List String) (s : LoopState) :
    (sf t = true →
      processLoop classify pf sf store fuel i t (text :: rest) s =
        some ⟨s, [], []⟩) ∧
    (StopMono sf → sf t = false →
      ∀ t', pauseWait pf sf (t + 1) fuel = some (t', true) →
      ∃ out, processLoop classify pf sf store fuel i t (text :: rest) s =
        some out ∧ out.calls = [(i, text)]) := by
  constructor
  · intro hs
    exact processLoop_stop hs i (text :: rest) s
  · intro hmono hs t' hpw
    have hread := @pauseWait_stop_read pf sf fuel (t + 1) t' hpw
    have hstop' : sf t' = true := hmono (t' - 1) t' (by omega) hread.1
    cases hc : classify i text with
    | some result =>
      rw [processLoop_cons_success hs hpw hc,
        processLoop_stop hstop' (i + 1) rest (stepSuccess s result)]
      exact ⟨_, rfl, rfl⟩
    | none =>
      rw [processLoop_cons_failure hs hpw hc,
        processLoop_stop hstop' (i + 1) rest (stepFailure s text)]
      exact ⟨_, rfl, rfl⟩

/-- Counterexample to C5 as stated: on a one-item batch where pause is
engaged and stop is requested while the loop is blocked in the
pause-polling wait (the wait returns reporting the stop, at time 3), the
loop does not exit immediately: the item is still submitted to the
classifier afterwards, so the call trace is `[(0, "a")]`, not `[]`. -/
theorem claim_C5_stop_counterexample :
    pauseWait (fun u => decide (u = 1)) (fun u => decide (2 ≤ u)) 1 2 =
      some (3, true) ∧
    (processLoop (fun _ _ => none) (fun u => decide (u = 1))
      (fun u => decide (2 ≤ u)) (fun _ _ => Except.error "down") 2 0 0 ["a"]
      (initialState 1)).map LoopOut.calls = some [(0, "a")] :=
  ⟨rfl, rfl⟩

/-- Witness for the amended C5 at the concrete counterexample schedule. -/
theorem claim_C5_stop_amended_witness :
    StopMono (fun u => decide (2 ≤ u)) ∧
    ((fun u : Nat => decide (2 ≤ u)) 0 = false) ∧
    (pauseWait (fun u => decide (u = 1)) (fun u => decide (2 ≤ u)) 1 2 =
      some (3, true)) ∧
    (∃ out, processLoop (fun _ _ => none) (fun u => decide (u = 1))
      (fun u => decide (2 ≤ u)) (fun _ _ => Except.error "down") 2 0 0 ["a"]
      (initialState 1) = some out ∧ out.calls = [(0, "a")]) := by
  have hmono : StopMono (fun u => decide (2 ≤ u)) := by
    intro u v huv hu
    simp only [decide_eq_true_eq] at hu ⊢
    omega
  exact ⟨hmono, rfl, rfl,
    (claim_C5_stop_amended (fun _ _ => none) (fun u => decide (u = 1))
      (fun u => decide (2 ≤ u)) (fun _ _ => Except.error "down") 2 0 0 "a" []
      (initialState 1)).2 hmono rfl 3 rfl⟩

/-- C6: the result store's append (`saveRecord`) never raises: a
rejected insert or an error-carrying response both yield `null`; the
dispatch loop's observable outcome is entirely independent of the store's
behavior, a successfully classified item is counted as a success (and
displayed) whatever the store does, and a classifier success always takes
the success branch, passing the result to `saveRecord` and continuing. -/
theorem claim_C6_store_isolation :
    (∀ (record : AnalysisResult) (attempt : DbRow → Except String InsertResponse)
      (e : String), attempt (toRow record) = Except.error e →
      saveRecord record attempt = none) ∧
    (∀ (record : AnalysisResult) (attempt : DbRow → Except String InsertResponse)
      (resp : InsertResponse) (msg : String),
      attempt (toRow record) = Except.ok resp → resp.error = some msg →
      saveRecord record attempt = none) ∧
    (∀ (classify : Nat → String → Option AnalysisResult) (pf sf : Nat → Bool)
      (store store' : Nat → DbRow → Except String InsertResponse)
      (fuel i t : Nat) (items : List String) (s : LoopState),
      processLoop classify pf sf store fuel i t items s =
        processLoop classify pf sf store' fuel i t items s) ∧
    (∀ (s : LoopState) (result : AnalysisResult),
      (stepSuccess s result).progress.success = s.progress.success + 1 ∧
      (stepSuccess s result).progress.current = s.progress.current + 1 ∧
      (stepSuccess s result).progress.failed = s.progress.failed ∧
      (stepSuccess s result).displayResults =
        (result :: s.displayResults).take MAX_DISPLAY_HISTORY) ∧
    (∀ (classify : Nat → String → Option AnalysisResult) (pf sf : Nat → Bool)
      (store : Nat → DbRow → Except String InsertResponse)
      (fuel i t t' : Nat) (b : Bool) (text : String) (rest : List String)
      (s : LoopState) (result : AnalysisResult),
      sf t = false → pauseWait pf sf (t + 1) fuel = some (t', b) →
      classify i text = some result →
      processLoop classify pf sf store fuel i t (text :: rest) s =
        (processLoop classify pf sf store fuel (i + 1) t' rest
          (stepSuccess s result)).map
          (fun o => ⟨o.final, (i, text) :: o.calls, result :: o.saves⟩)) := by
  refine ⟨?_, ?_, ?_, ?_, ?_⟩
  · intro record attempt e h
    simp [saveRecord, h]
  · intro record attempt resp msg h he
    simp [saveRecord, h, he]
  · intro classify pf sf store store' fuel i t items s
    exact processLoop_store_irrelevant items i t s
  · intro s result
    exact ⟨rfl, rfl, rfl, rfl⟩
  · intro classify pf sf store fuel i t t' b text rest s result hs hpw hc
    exact processLoop_cons_success hs hpw hc rest s

/-- Witness for C6 at concrete inputs: a failing store yields `null`,
and two stores (one always failing, one always succeeding) give the same
run outcome. -/
theorem claim_C6_store_isolation_witness :
    ((fun _ : DbRow => (Except.error "down" : Except String InsertResponse))
        (toRow (errorResult "a")) = Except.error "down") ∧
    (saveRecord (errorResult "a")
      (fun _ => (Except.error "down" : Except String InsertResponse)) = none) ∧
    (processLoop (fun _ text => some ⟨text, text, []⟩) (fun _ => false)
      (fun _ => false) (fun _ _ => Except.error "down") 1 0 0 ["a"]
      (initialState 1) =
      processLoop (fun _ text => some ⟨text, text, []⟩) (fun _ => false)
      (fun _ => false)
      (fun _ _ => Except.ok { data := none, error := none }) 1 0 0 ["a"]
      (initialState 1)) :=
  ⟨rfl,
    claim_C6_store_isolation.1 (errorResult "a")
      (fun _ => Except.error "down") "down" rfl,
    claim_C6_store_isolation.2.2.1 (fun _ text => some ⟨text, text, []⟩)
      (fun _ => false) (fun _ => false) (fun _ _ => Except.error "down")
      (fun _ _ => Except.ok { data := none, error := none }) 1 0 0 ["a"]
      (initialState 1)⟩

/-- C7: starting from a display list within the cap, after any
terminating run of the dispatch loop the recent-results view holds the
results of the processed items most-recent-first (each step prepends and
truncates), in front of what was displayed before, truncated to the cap
of 100 — so it never exceeds 100 entries. -/
theorem claim_C7_display_window
    (classify : Nat → String → Option AnalysisResult) (pf sf : Nat → Bool)
    (store : Nat → DbRow → Except String InsertResponse)
    (fuel i t : Nat) (items : List String) (s : LoopState) (out : LoopOut)
    (hlen : s.displayResults.length ≤ MAX_DISPLAY_HISTORY)
    (hrun : processLoop classify pf sf store fuel i t items s = some out) :
    out.final.displayResults =
      ((out.calls.map (fun c => itemResult classify c.1 c.2)).reverse ++
        s.displayResults).take MAX_DISPLAY_HISTORY ∧
    out.final.displayResults.length ≤ MAX_DISPLAY_HISTORY := by
  have h := processLoop_display items i t s out hrun hlen
  refine ⟨h, ?_⟩
  rw [h]
  simp [List.length_take]

/-- Witness for C7 at a concrete two-item run (one success, one
failure). -/
theorem claim_C7_display_window_witness :
    ((initialState 2).displayResults.length ≤ MAX_DISPLAY_HISTORY) ∧
    (∃ out, processLoop
      (fun i (text : String) => if i = 0 then some ⟨text, text, []⟩ else none)
      (fun _ => false) (fun _ => false) (fun _ _ => Except.error "down") 1 0 0
      ["a", "b"] (initialState 2) = some out ∧
      out.final.displayResults =
        ((out.calls.map (fun c =>
          itemResult (fun i (text : String) =>
            if i = 0 then some ⟨text, text, []⟩ else none) c.1 c.2)).reverse ++
          (initialState 2).displayResults).take MAX_DISPLAY_HISTORY ∧
      out.final.displayResults.length ≤ MAX_DISPLAY_HISTORY) := by
  have hrun : processLoop
      (fun i (text : String) => if i = 0 then some ⟨text, text, []⟩ else none)
      (fun _ => false) (fun _ => false) (fun _ _ => Except.error "down") 1 0 0
      ["a", "b"] (initialState 2) =
      some { final := { progress := { current := 2, total := 2, success := 1, failed := 1 }
                        displayResults := [errorResult "b", ⟨"a", "a", []⟩]
                        batchAnnotations := []
                        latestResult := some ⟨"a", "a", []⟩ }
             calls := [(0, "a"), (1, "b")]
             saves := [⟨"a", "a", []⟩] } := by
    rfl
  have h := claim_C7_display_window
    (fun i (text : String) => if i = 0 then some ⟨text, text, []⟩ else none)
    (fun _ => false) (fun _ => false) (fun _ _ => Except.error "down") 1 0 0
    ["a", "b"] (initialState 2) _ (by simp [initialState]) hrun
  exact ⟨by simp [initialState], _, hrun, h⟩

/-- C8: with the same classifier outcomes and no stop request, a run
under an arbitrary pause schedule (paused and resumed any number of
times), if it terminates, reaches exactly the same final progress
counters — and the same classifier call trace, so no item is dropped or
duplicated — as a run that never pauses. -/
theorem claim_C8_pause_transparent
    (classify : Nat → String → Option AnalysisResult) (pf : Nat → Bool)
    (sf : Nat → Bool) (store store' : Nat → DbRow → Except String InsertResponse)
    (fuel fuel' i t t' : Nat) (items : List String) (s : LoopState)
    (out out' : LoopOut)
    (hsf : ∀ u, sf u = false)
    (hpaused : processLoop classify pf sf store fuel i t items s = some out)
    (hnopause : processLoop classify (fun _ => false) sf store' fuel' i t'
      items s = some out') :
    out.final.progress = out'.final.progress ∧ out.calls = out'.calls := by
  obtain ⟨e1, c1⟩ := processLoop_noStop hsf items i t s out hpaused
  obtain ⟨e2, c2⟩ := processLoop_noStop hsf items i t' s out' hnopause
  rw [e1, e2, c1, c2]
  exact ⟨rfl, rfl⟩

/-- Witness for C8: a run pausing once at item 0 versus a never-pausing
run, on the same one-item batch. -/
theorem claim_C8_pause_transparent_witness :
    (∀ u : Nat, (fun _ : Nat => false) u = false) ∧
    (∃ out out' : LoopOut,
      processLoop (fun _ text => some ⟨text, text, []⟩)
        (fun u => decide (u = 1)) (fun _ => false)
        (fun _ _ => Except.error "down") 2 0 0 ["a"] (initialState 1) =
        some out ∧
      processLoop (fun _ text => some ⟨text, text, []⟩) (fun _ => false)
        (fun _ => false) (fun _ _ => Except.error "down") 1 0 0 ["a"]
        (initialState 1) = some out' ∧
      out.final.progress = out'.final.progress ∧ out.calls = out'.calls) := by
  have h1 : processLoop (fun _ text => some ⟨text, text, []⟩)
      (fun u => decide (u = 1)) (fun _ => false)
      (fun _ _ => Except.error "down") 2 0 0 ["a"] (initialState 1) =
      some { final := { progress := { current := 1, total := 1, success := 1, failed := 0 }
                        displayResults := [⟨"a", "a", []⟩]
                        batchAnnotations := []
                        latestResult := some ⟨"a", "a", []⟩ }
             calls := [(0, "a")]
             saves := [⟨"a", "a", []⟩] } := by
    rfl
  have h2 : processLoop (fun _ text => some ⟨text, text, []⟩) (fun _ => false)
      (fun _ => false) (fun _ _ => Except.error "down") 1 0 0 ["a"]
      (initialState 1) =
      some { final := { progress := { current := 1, total := 1, success := 1, failed := 0 }
                        displayResults := [⟨"a", "a", []⟩]
                        batchAnnotations := []
                        latestResult := some ⟨"a", "a", []⟩ }
             calls := [(0, "a")]
             saves := [⟨"a", "a", []⟩] } := by
    rfl
  exact ⟨fun _ => rfl, _, _, h1, h2,
    claim_C8_pause_transparent (fun _ text => some ⟨text, text, []⟩)
      (fun u => decide (u = 1)) (fun _ => false)
      (fun _ _ => Except.error "down") (fun _ _ => Except.error "down") 2 1 0 0
      0 ["a"] (initialState 1) _ _ (fun _ => rfl) h1 h2⟩

/-- The retry loop, once `retries` reaches the cap, surfaces the
terminal "Max retries exceeded" failure without a further call. -/
lemma analyzeTextGo_capped (calls : Nat → CallResult) (rand : Nat → ℚ) :
    analyzeTextGo calls rand 5 =
      ⟨Except.error AnalyzeFailure.maxRetriesExceeded, 0, []⟩ := by
  rw [analyzeTextGo]
  norm_num [maxRetries]

/-- C4: with `Math.random()` in `[0, 1)`, each backoff wait for retry n
is `baseDelay * 2 ^ n` plus a jitter in `[0, 1000)` ms (base 2000 ms);
a call whose every underlying attempt fails retryably makes exactly 5
attempts (the cap), waiting the exponential-backoff times in order, and
then surfaces a terminal failure; and a call whose first attempt fails
fatally is never retried — exactly one underlying call is made and the
fatal error is surfaced. -/
theorem claim_C4_retry_policy (calls : Nat → CallResult) (rand : Nat → ℚ)
    (hrand : ∀ n, 0 ≤ rand n ∧ rand n < 1) :
    (∀ n, baseDelay * 2 ^ n ≤ waitTime rand n ∧
      waitTime rand n < baseDelay * 2 ^ n + 1000) ∧
    ((∀ k, calls k = CallResult.retryable) →
      analyzeText true calls rand =
        ⟨Except.error AnalyzeFailure.maxRetriesExceeded, 5,
          [waitTime rand 1, waitTime rand 2, waitTime rand 3, waitTime rand 4,
            waitTime rand 5]⟩) ∧
    (calls 0 = CallResult.fatal →
      analyzeText true calls rand =
        ⟨Except.error AnalyzeFailure.fatalCall, 1, []⟩) := by
  refine ⟨?_, ?_, ?_⟩
  · intro n
    have h := hrand n
    unfold waitTime
    constructor
    · nlinarith [h.1]
    · nlinarith [h.2]
  · intro hall
    have e5 := analyzeTextGo_capped calls rand
    have e4 : analyzeTextGo calls rand 4 =
        ⟨Except.error AnalyzeFailure.maxRetriesExceeded, 1, [waitTime rand 5]⟩ := by
      rw [analyzeTextGo]
      simp [maxRetries, hall 4, show (4 : Nat) + 1 = 5 from rfl, e5]
    have e3 : analyzeTextGo calls rand 3 =
        ⟨Except.error AnalyzeFailure.maxRetriesExceeded, 2,
          [waitTime rand 4, waitTime rand 5]⟩ := by
      rw [analyzeTextGo]
      simp [maxRetries, hall 3, show (3 : Nat) + 1 = 4 from rfl, e4]
    have e2 : analyzeTextGo calls rand 2 =
        ⟨Except.error AnalyzeFailure.maxRetriesExceeded, 3,
          [waitTime rand 3, waitTime rand 4, waitTime rand 5]⟩ := by
      rw [analyzeTextGo]
      simp [maxRetries, hall 2, show (2 : Nat) + 1 = 3 from rfl, e3]
    have e1 : analyzeTextGo calls rand 1 =
        ⟨Except.error AnalyzeFailure.maxRetriesExceeded, 4,
          [waitTime rand 2, waitTime rand 3, waitTime rand 4, waitTime rand 5]⟩ := by
      rw [analyzeTextGo]
      simp [maxRetries, hall 1, show (1 : Nat) + 1 = 2 from rfl, e2]
    show analyzeTextGo calls rand 0 = _
    rw [analyzeTextGo]
    simp [maxRetries, hall 0, show (0 : Nat) + 1 = 1 from rfl, e1]
  · intro hfatal
    show analyzeTextGo calls rand 0 = _
    rw [analyzeTextGo]
    simp [maxRetries, hfatal]

/-- Witness for C4 at a concrete random oracle (constant 1/2) and the
all-retryable and first-call-fatal outcome schedules. -/
theorem claim_C4_retry_policy_witness :
    (∀ n : Nat, 0 ≤ (fun _ : Nat => (1 : ℚ) / 2) n ∧
      (fun _ : Nat => (1 : ℚ) / 2) n < 1) ∧
    ((∀ k : Nat, (fun _ : Nat => CallResult.retryable) k = CallResult.retryable) →
      analyzeText true (fun _ => CallResult.retryable) (fun _ => (1 : ℚ) / 2) =
        ⟨Except.error AnalyzeFailure.maxRetriesExceeded, 5,
          [waitTime (fun _ => (1 : ℚ) / 2) 1, waitTime (fun _ => (1 : ℚ) / 2) 2,
            waitTime (fun _ => (1 : ℚ) / 2) 3, waitTime (fun _ => (1 : ℚ) / 2) 4,
            waitTime (fun _ => (1 : ℚ) / 2) 5]⟩) ∧
    ((fun _ : Nat => CallResult.fatal) 0 = CallResult.fatal →
      analyzeText true (fun _ => CallResult.fatal) (fun _ => (1 : ℚ) / 2) =
        ⟨Except.error AnalyzeFailure.fatalCall, 1, []⟩) := by
  have hrand : ∀ n : Nat, 0 ≤ (fun _ : Nat => (1 : ℚ) / 2) n ∧
      (fun _ : Nat => (1 : ℚ) / 2) n < 1 := by
    intro n
    norm_num
  refine ⟨hrand, ?_, ?_⟩
  · exact (claim_C4_retry_policy (fun _ => CallResult.retryable)
      (fun _ => (1 : ℚ) / 2) hrand).2.1
  · exact (claim_C4_retry_policy (fun _ => CallResult.fatal)
      (fun _ => (1 : ℚ) / 2) hrand).2.2

/-- Non-matching head equation of the first normalization pass. -/
lemma normCRLF_cons (c : Char) (l : List Char)
    (hno : ∀ rest, c = '\r' → l = '\n' :: rest → False) :
    normCRLF (c :: l) = c :: normCRLF l := by
  rw [normCRLF.eq_def]
  split
  · rename_i rest heq
    rw [List.cons.injEq] at heq
    exact (hno rest heq.1 heq.2).elim
  · rename_i c2 rest2 hno2 heq
    injection heq with e1 e2
    subst e1
    subst e2
    rfl
  · rename_i heq
    exact List.noConfusion heq

/-- Every character the first normalization pass emits was in the input
or is a line feed. -/
lemma mem_normCRLF (ch : Char) :
    ∀ l, ch ∈ normCRLF l → ch ∈ l ∨ ch = '\n' := by
  intro l
  induction l using normCRLF.induct with
  | case1 rest ih =>
    intro h
    rw [show normCRLF ('\r' :: '\n' :: rest) = '\n' :: normCRLF rest from rfl] at h
    rcases List.mem_cons.mp h with h | h
    · right; exact h
    · rcases ih h with h' | h'
      · left; simp [h']
      · right; exact h'
  | case2 c rest hno ih =>
    intro h
    rw [normCRLF_cons c rest hno] at h
    rcases List.mem_cons.mp h with h | h
    · left; simp [h]
    · rcases ih h with h' | h'
      · left; simp [h']
      · right; exact h'
  | case3 =>
    intro h
    simp [normCRLF] at h

/-- Normalization introduces no double quote. -/
lemma quote_not_mem_normalizeChars {l : List Char} (h : '"' ∉ l) :
    '"' ∉ normalizeChars l := by
  intro hmem
  unfold normalizeChars normCR at hmem
  rw [List.mem_map] at hmem
  obtain ⟨c, hc, heq⟩ := hmem
  by_cases hcr : c = '\r'
  · simp [hcr] at heq
  · simp only [if_neg hcr] at heq
    subst heq
    rcases mem_normCRLF _ _ hc with h' | h'
    · exact h h'
    · exact absurd h' (by decide)

/-- The reference line splitting never produces an empty list of lines. -/
lemma splitLinesChars_ne_nil : ∀ l : List Char, splitLinesChars l ≠ [] := by
  intro l
  induction l with
  | nil => simp [splitLinesChars]
  | cons c rest ih =>
    simp only [splitLinesChars, List.foldr_cons] at *
    by_cases hc : c = '\n'
    · simp [hc]
    · simp only [if_neg hc]
      cases h : List.foldr _ [[]] rest with
      | nil => exact (ih h).elim
      | cons a t => simp

/-- A newline-free text is a single line. -/
lemma splitLinesChars_no_newline :
    ∀ l : List Char, '\n' ∉ l → splitLinesChars l = [l] := by
  intro l
  induction l with
  | nil => intro _; rfl
  | cons c rest ih =>
    intro h
    have hc : c ≠ '\n' := fun e => h (by simp [e])
    have hrest : '\n' ∉ rest := fun e => h (by simp [e])
    simp only [splitLinesChars, List.foldr_cons] at *
    rw [ih hrest, if_neg hc]

/-- Prepending a newline-free prefix and a newline adds one line. -/
lemma splitLinesChars_append :
    ∀ (m r : List Char), '\n' ∉ m →
    splitLinesChars (m ++ '\n' :: r) = m :: splitLinesChars r := by
  intro m
  induction m with
  | nil =>
    intro r _
    simp [splitLinesChars]
  | cons c m' ih =>
    intro r h
    have hc : c ≠ '\n' := fun e => h (by simp [e])
    have hm' : '\n' ∉ m' := fun e => h (by simp [e])
    simp only [splitLinesChars, List.foldr_cons, List.cons_append] at *
    rw [ih r hm', if_neg hc]

/-- On quote-free input, the `parseCSV` scan emits exactly the non-empty
trimmed lines, in order. -/
lemma csvLoop_noQuote :
    ∀ (l current : List Char), '"' ∉ l → '\n' ∉ current →
    csvLoop l current false =
      (splitLinesChars (current ++ l)).filterMap lineEntry := by
  intro l
  induction l with
  | nil =>
    intro current hq hn
    rw [List.append_nil, splitLinesChars_no_newline current hn]
    simp only [List.filterMap_cons, List.filterMap_nil]
    by_cases ht : trimChars current = []
    · simp [csvLoop, csvFlush, lineEntry, ht]
    · simp [csvLoop, csvFlush, lineEntry, ht]
  | cons c rest ih =>
    intro current hq hn
    have hcq : c ≠ '"' := fun e => hq (by simp [e])
    have hrq : '"' ∉ rest := fun e => hq (by simp [e])
    by_cases hc : c = '\n'
    · subst hc
      have hstep : csvLoop ('\n' :: rest) current false =
          csvFlush current ++ csvLoop rest [] false := by
        simp [csvLoop]
      rw [hstep, ih [] hrq (by simp), splitLinesChars_append current rest hn,
        List.filterMap_cons]
      by_cases ht : trimChars current = []
      · simp [lineEntry, csvFlush, ht]
      · simp [lineEntry, csvFlush, ht]
    · have hstep : csvLoop (c :: rest) current false =
          csvLoop rest (current ++ [c]) false := by
        simp [csvLoop, hcq, hc]
      have hn' : '\n' ∉ current ++ [c] := by
        intro hmem
        rcases List.mem_append.mp hmem with h | h
        · exact hn h
        · simp at h
          exact hc h.symm
      rw [hstep, ih (current ++ [c]) hrq hn', List.append_assoc,
        List.singleton_append]

/-- C9: `parseCSV` first normalizes line endings — a CR LF pair becomes
a single LF, a lone CR becomes an LF — treats a doubled quote inside a
quoted region as one literal quote character (illustrated on a concrete
quoted field), and on quote-free input returns exactly the non-empty
(after trimming) entries, one per (normalized) line, in file order. -/
theorem claim_C9_parseCSV :
    (∀ l, normalizeChars ('\r' :: '\n' :: l) = '\n' :: normalizeChars l) ∧
    (∀ l : List Char, l.head? ≠ some '\n' →
      normalizeChars ('\r' :: l) = '\n' :: normalizeChars l) ∧
    (∀ (current rest : List Char),
      csvLoop ('"' :: '"' :: rest) current true =
        csvLoop rest (current ++ ['"']) true) ∧
    (parseCSV "\"a\"\"b\"" = ["a\"b"]) ∧
    (∀ s : String, '"' ∉ s.data →
      parseCSV s = (splitLinesChars (normalizeChars s.data)).filterMap lineEntry) := by
  refine ⟨?_, ?_, ?_, ?_, ?_⟩
  · intro l
    show normCR ('\n' :: normCRLF l) = '\n' :: normalizeChars l
    simp [normCR, normalizeChars]
  · intro l hl
    cases l with
    | nil => rfl
    | cons c cs =>
      have hc : c ≠ '\n' := by
        intro e
        exact hl (by simp [e])
      have h1 : normCRLF ('\r' :: c :: cs) = '\r' :: normCRLF (c :: cs) := by
        apply normCRLF_cons
        intro rest hcr hcons
        rw [List.cons.injEq] at hcons
        exact hc hcons.1
      show normCR (normCRLF ('\r' :: c :: cs)) = '\n' :: normalizeChars (c :: cs)
      rw [h1]
      simp [normCR, normalizeChars]
  · intro current rest
    rfl
  · rfl
  · intro s hq
    exact csvLoop_noQuote (normalizeChars s.data) []
      (quote_not_mem_normalizeChars hq) (by simp)

/-- Witness for C9: lone-CR normalization at a concrete list, and the
quote-free characterization at a concrete two-line string. -/
theorem claim_C9_parseCSV_witness :
    ((['a'] : List Char).head? ≠ some '\n') ∧
    (normalizeChars ('\r' :: ['a']) = '\n' :: normalizeChars ['a']) ∧
    ('"' ∉ (" a \nb\n\n" : String).data) ∧
    (parseCSV " a \nb\n\n" =
      (splitLinesChars (normalizeChars (" a \nb\n\n" : String).data)).filterMap
        lineEntry) ∧
    (parseCSV " a \nb\n\n" = ["a", "b"]) := by
  refine ⟨by decide, claim_C9_parseCSV.2.1 ['a'] (by decide), by decide,
    claim_C9_parseCSV.2.2.2.2 " a \nb\n\n" (by decide), ?_⟩
  rfl

/-- `slice` index clamping is the identity on in-range indices. -/
lemma jsSliceIndex_of_valid {len : Nat} {i : Int} (h0 : 0 ≤ i)
    (hle : i ≤ (len : Int)) : jsSliceIndex len i = i.toNat := by
  unfold jsSliceIndex
  rw [if_neg (by omega)]
  exact min_eq_left (by omega)

/-- Glueing a dropped-take segment back onto the remaining drop. -/
lemma drop_take_append_drop {α : Type} (l : List α) (a b : Nat)
    (hab : a ≤ b) (hal : a ≤ l.length) :
    (l.take b).drop a ++ l.drop b = l.drop a := by
  conv_rhs => rw [← List.take_append_drop b l]
  rw [List.drop_append_eq_append_drop]
  have hz : a - (l.take b).length = 0 := by
    simp [List.length_take]
    omega
  rw [hz, List.drop_zero]

/-- The segments emitted by the render loop concatenate to the tail of
the text from `lastIndex`, provided the annotations start no earlier
than `lastIndex`, are valid spans, and are chained (each ends before the
next starts). -/
lemma renderLoop_flatten (text : List Char) :
    ∀ (anns : List Annotation) (lastIndex : Int),
    0 ≤ lastIndex → lastIndex ≤ (text.length : Int) →
    (∀ a ∈ anns, lastIndex ≤ a.start_index ∧ a.start_index < a.end_index ∧
      a.end_index ≤ (text.length : Int)) →
    List.Pairwise (fun a b => a.end_index ≤ b.start_index) anns →
    (renderLoop text lastIndex anns).flatten = text.drop lastIndex.toNat := by
  intro anns
  induction anns with
  | nil =>
    intro lastIndex h0 hlen _ _
    simp only [renderLoop]
    by_cases hlt : lastIndex < (text.length : Int)
    · rw [if_pos hlt]
      simp only [List.flatten_cons, List.flatten_nil, List.append_nil, jsSlice]
      rw [jsSliceIndex_of_valid h0 hlen,
        jsSliceIndex_of_valid (by omega) (le_refl _)]
      simp [List.take_length]
    · rw [if_neg hlt]
      have : lastIndex.toNat = text.length := by omega
      rw [this]
      simp [List.drop_length]
  | cons a anns' ih =>
    intro lastIndex h0 hlen hvalid hchain
    obtain ⟨has, hse, helen⟩ := hvalid a (by simp)
    have h0e : (0 : Int) ≤ a.end_index := by omega
    have hvalid' : ∀ b ∈ anns', a.end_index ≤ b.start_index ∧
        b.start_index < b.end_index ∧ b.end_index ≤ (text.length : Int) := by
      intro b hb
      have h1 := (List.pairwise_cons.mp hchain).1 b hb
      have h2 := hvalid b (by simp [hb])
      exact ⟨h1, h2.2.1, h2.2.2⟩
    have hrec := ih a.end_index h0e helen hvalid'
      (List.pairwise_cons.mp hchain).2
    simp only [renderLoop, List.flatten_append, List.flatten_cons]
    rw [hrec]
    have hmid : jsSlice text a.start_index a.end_index ++
        text.drop a.end_index.toNat = text.drop a.start_index.toNat := by
      unfold jsSlice
      rw [jsSliceIndex_of_valid (by omega) (by omega),
        jsSliceIndex_of_valid h0e helen]
      exact drop_take_append_drop text a.start_index.toNat a.end_index.toNat
        (by omega) (by omega)
    by_cases hpre : lastIndex < a.start_index
    · rw [if_pos hpre]
      simp only [List.flatten_cons, List.flatten_nil, List.append_nil]
      rw [hmid]
      unfold jsSlice
      rw [jsSliceIndex_of_valid h0 hlen,
        jsSliceIndex_of_valid (by omega) (by omega)]
      exact drop_take_append_drop text lastIndex.toNat a.start_index.toNat
        (by omega) (by omega)
    · rw [if_neg hpre]
      simp only [List.flatten_nil, List.nil_append]
      have : lastIndex = a.start_index := by omega
      rw [this, hmid]

/-- C10: for every original text and every list of annotations whose
spans satisfy `0 ≤ start_index < end_index ≤ length` and are pairwise
non-overlapping, `renderText` (which sorts the spans by `start_index`)
emits segments whose concatenation is exactly the original text: no
character is dropped or duplicated by highlighting. -/
theorem claim_C10_render_concat (text : List Char)
    (annotations : List Annotation)
    (hvalid : ∀ a ∈ annotations, 0 ≤ a.start_index ∧
      a.start_index < a.end_index ∧ a.end_index ≤ (text.length : Int))
    (hno : List.Pairwise (fun a b => a.end_index ≤ b.start_index ∨
      b.end_index ≤ a.start_index) annotations) :
    (renderText text annotations).flatten = text := by
  unfold renderText sortAnnotations
  haveI : IsTotal Annotation (fun a b => a.start_index ≤ b.start_index) :=
    ⟨fun a b => le_total _ _⟩
  haveI : IsTrans Annotation (fun a b => a.start_index ≤ b.start_index) :=
    ⟨fun a b c h1 h2 => le_trans h1 h2⟩
  have hperm := List.perm_insertionSort
    (fun a b : Annotation => a.start_index ≤ b.start_index) annotations
  have hvalid' : ∀ a ∈ List.insertionSort
      (fun a b : Annotation => a.start_index ≤ b.start_index) annotations,
      0 ≤ a.start_index ∧ a.start_index < a.end_index ∧
        a.end_index ≤ (text.length : Int) :=
    fun a ha => hvalid a (hperm.mem_iff.mp ha)
  have hsorted : List.Pairwise (fun a b : Annotation =>
      a.start_index ≤ b.start_index) (List.insertionSort
      (fun a b : Annotation => a.start_index ≤ b.start_index) annotations) :=
    List.sorted_insertionSort _ annotations
  have hno' : List.Pairwise (fun a b : Annotation =>
      a.end_index ≤ b.start_index ∨ b.end_index ≤ a.start_index)
      (List.insertionSort
        (fun a b : Annotation => a.start_index ≤ b.start_index) annotations) :=
    (hperm.pairwise_iff (fun h => h.symm)).mpr hno
  have hchain : List.Pairwise (fun a b : Annotation =>
      a.end_index ≤ b.start_index)
      (List.insertionSort
        (fun a b : Annotation => a.start_index ≤ b.start_index) annotations) := by
    refine (hsorted.and hno').imp_of_mem ?_
    intro a b ha hb hab
    rcases hab.2 with h | h
    · exact h
    · have hbv := hvalid' b hb
      have := hab.1
      omega
  have := renderLoop_flatten text
    (List.insertionSort
      (fun a b : Annotation => a.start_index ≤ b.start_index) annotations)
    0 le_rfl (by positivity)
    (fun a ha => ⟨(hvalid' a ha).1, (hvalid' a ha).2.1, (hvalid' a ha).2.2⟩)
    hchain
  simpa using this

/-- Witness for C10 on a concrete text with two unsorted, valid,
non-overlapping annotations. -/
theorem claim_C10_render_concat_witness :
    (∀ a ∈ [(⟨"cd", "x", 2, 4, "R", "R", "e"⟩ : Annotation),
        (⟨"a", "y", 0, 1, "S", "S", "e"⟩ : Annotation)],
      0 ≤ a.start_index ∧ a.start_index < a.end_index ∧
        a.end_index ≤ (("abcde" : String).data.length : Int)) ∧
    List.Pairwise (fun a b : Annotation => a.end_index ≤ b.start_index ∨
      b.end_index ≤ a.start_index)
      [(⟨"cd", "x", 2, 4, "R", "R", "e"⟩ : Annotation),
        (⟨"a", "y", 0, 1, "S", "S", "e"⟩ : Annotation)] ∧
    (renderText ("abcde" : String).data
      [(⟨"cd", "x", 2, 4, "R", "R", "e"⟩ : Annotation),
        (⟨"a", "y", 0, 1, "S", "S", "e"⟩ : Annotation)]).flatten =
      ("abcde" : String).data :=
  ⟨by decide, by decide,
    claim_C10_render_concat ("abcde" : String).data
      [⟨"cd", "x", 2, 4, "R", "R", "e"⟩, ⟨"a", "y", 0, 1, "S", "S", "e"⟩]
      (by decide) (by decide)⟩
